import Mathlib

set_option maxHeartbeats 1600000

/-!
Verification of the sanic snowflake-style ID generator (`worker.go`).

The Go code is embedded shallowly:

* Machine `int64` values are modelled as `Int`, with every operation that can
  overflow routed through `wrap64` (two's-complement wraparound at 64 bits).
  Go's `%` on `int64` is truncated remainder, `Int.tmod`; Go's `<<` on a
  64-bit operand discards bits above bit 63 (a shift by ≥ 64 yields 0), and
  `|` is bitwise or on the 64-bit pattern.
* The wall clock is externalised: `w.Time()` readings are supplied as a list
  of tick values (`time.Now().UnixNano() / int64(w.Frequency)` results), and
  every call of `w.Time()` in the Go code consumes the head of that list.
* A call can end three ways, captured by `Gen`: it returns an id (`ok`),
  it panics with an integer division by zero (`divZero`, which Go raises in
  `w.Sequence % (1 << w.SequenceBits)` when `1 << w.SequenceBits` is the
  int64 value 0, i.e. `SequenceBits ≥ 64`), or the supplied clock trace is
  exhausted while a spin loop is still waiting (`noTick`, modelling the
  busy-wait in `waitForNextTime` not having returned within the trace).
* `log.Fatal` in `NewWorker` is modelled as the `none` result of an
  `Option Worker`.
-/

/-- Two's-complement wraparound of an integer into the signed 64-bit range
`[-2^63, 2^63)`, the value a Go `int64` holds after an overflowing operation. -/
def wrap64 (x : Int) : Int := (x + 2 ^ 63) % 2 ^ 64 - 2 ^ 63

/-- The unsigned 64-bit pattern of an int64 value (used for bitwise ops). -/
def uns64 (x : Int) : Nat := (x % 2 ^ 64).toNat

/-- Go `x << s` on int64: multiply by `2^s` and keep the low 64 bits
(shift counts ≥ 64 yield 0, which `wrap64` reproduces). -/
def shl64 (x : Int) (s : Nat) : Int := wrap64 (x * 2 ^ s)

/-- Go `a | b` on int64: bitwise or of the 64-bit patterns, reinterpreted
as a signed value. -/
def or64 (a b : Int) : Int := wrap64 (Int.ofNat (Nat.lor (uns64 a) (uns64 b)))

/-- Go `a - b` on int64. -/
def sub64 (a b : Int) : Int := wrap64 (a - b)

/-- Go `a + b` on int64. -/
def add64 (a b : Int) : Int := wrap64 (a + b)

/-- The `Worker` struct of `worker.go`.  `int64` fields are `Int`, `uint64`
bit-width and shift fields are `Nat`, `Frequency` (a `time.Duration`, i.e. a
nanosecond count) is `Int`.  The mutex is not part of the data; locking is
modelled by `LockedWorker` below. -/
structure Worker where
  ID : Int
  IDBits : Nat
  IDShift : Nat
  Sequence : Int
  SequenceBits : Nat
  LastTimeStamp : Int
  TimeStampBits : Nat
  TimeStampShift : Nat
  Frequency : Int
  TotalBits : Nat
  CustomEpoch : Int
deriving DecidableEq

/-- `NewWorker` from `worker.go`.  `initTick` is the value returned by the
single `w.Time()` call the constructor performs (line 45).  The
`log.Fatal` on a bit-width sum not divisible by 6 is the `none` result.
The bit-width parameters are `uint64` values (represented by their `Nat`
values, below `2^64`); the two sums the constructor computes —
`totalBits = idBits + sequenceBits + timestampBits + 1` and
`TimeStampShift = sequenceBits + idBits` — are `uint64` additions and
therefore wrap modulo `2^64`, which the `% 2 ^ 64` below reproduces. -/
def NewWorker (id epoch : Int) (idBits sequenceBits timestampBits : Nat)
    (frequency : Int) (initTick : Int) : Option Worker :=
  let totalBits := (idBits + sequenceBits + timestampBits + 1) % 2 ^ 64
  if totalBits % 6 ≠ 0 then none
  else some
    { ID := id
      IDBits := idBits
      IDShift := sequenceBits
      Sequence := 0
      SequenceBits := sequenceBits
      LastTimeStamp := initTick
      TimeStampBits := timestampBits
      TimeStampShift := (sequenceBits + idBits) % 2 ^ 64
      Frequency := frequency
      TotalBits := totalBits
      CustomEpoch := epoch }

/-- The spin loop of `waitForNextTime`: read ticks from the clock trace until
one exceeds `last`; return that tick and the rest of the trace, or `none` if
the trace runs out first (the Go loop would still be spinning). -/
def waitAux (last : Int) : List Int → Option (Int × List Int)
  | [] => none
  | t :: rest => if t ≤ last then waitAux last rest else some (t, rest)

/-- `waitForNextTime` from `worker.go`: busy-poll `w.Time()` until it exceeds
`w.LastTimeStamp`, then store the new tick into `w.LastTimeStamp`. -/
def Worker.waitForNextTime (w : Worker) (clock : List Int) :
    Option (Worker × List Int) :=
  match waitAux w.LastTimeStamp clock with
  | none => none
  | some (ts, rest) => some ({ w with LastTimeStamp := ts }, rest)

/-- Outcome of one generation call (see the module comment). -/
inductive Gen (α : Type) where
  | ok : α → Gen α
  | divZero : Gen α
  | noTick : Gen α
deriving DecidableEq

/-- Compose the returned id, line 92-94 of `worker.go`:
`(timestamp-w.CustomEpoch)<<w.TimeStampShift | w.ID<<w.IDShift | w.Sequence`
(all int64 operations). -/
def Worker.composeID (w : Worker) (timestamp sequence : Int) : Int :=
  or64 (or64 (shl64 (sub64 timestamp w.CustomEpoch) w.TimeStampShift)
             (shl64 w.ID w.IDShift))
       sequence

/-- Lines 80-94 of `worker.go`, entered after the clock-rollback check:
`w1` is the worker state at line 80 (its `LastTimeStamp` updated when the
drift-wait ran), `timestamp` the original line-74 reading, `rest1` the
unconsumed clock trace.  In the sequence-wraparound branch, line 84 copies
the drift-wait's `w.LastTimeStamp` back into `timestamp`, so the line-90
store is a no-op there. -/
def Worker.sequenceStep (w1 : Worker) (timestamp : Int) (rest1 : List Int) :
    Gen (Int × Worker × List Int) :=
  if w1.LastTimeStamp = timestamp then
    let m := shl64 1 w1.SequenceBits
    if m = 0 then .divZero
    else
      let seq := Int.tmod (add64 w1.Sequence 1) m
      let w2 : Worker := { w1 with Sequence := seq }
      if seq = 0 then
        match w2.waitForNextTime rest1 with
        | none => .noTick
        | some (w3, rest2) =>
          .ok (w3.composeID w3.LastTimeStamp w3.Sequence, w3, rest2)
      else
        let w4 : Worker := { w2 with LastTimeStamp := timestamp }
        .ok (w4.composeID w4.LastTimeStamp w4.Sequence, w4, rest1)
  else
    let w4 : Worker := { w1 with Sequence := 0, LastTimeStamp := timestamp }
    .ok (w4.composeID w4.LastTimeStamp w4.Sequence, w4, rest1)

/-- `UnsafeNextID` from `worker.go`, lines 73-95.  The head of `clock` is the
`timestamp := w.Time()` reading of line 74; later elements feed the spin
loops.  Returns the id, the updated worker, and the unconsumed clock trace. -/
def Worker.UnsafeNextID (w : Worker) (clock : List Int) :
    Gen (Int × Worker × List Int) :=
  match clock with
  | [] => .noTick
  | timestamp :: rest =>
    if w.LastTimeStamp > timestamp then
      match w.waitForNextTime rest with
      | none => .noTick
      | some (w1, rest1) => w1.sequenceStep timestamp rest1
    else w.sequenceStep timestamp rest

/-- A worker together with the state of its mutex. -/
structure LockedWorker where
  worker : Worker
  locked : Bool
deriving DecidableEq

/-- `NextID` from `worker.go`: take the mutex, run `UnsafeNextID`, release the
mutex on every exit path (the `defer` runs both on return and during a panic
unwind).  A call finding the mutex held would block behind the other caller;
under the serialized discipline modelled here that cannot happen, and it is
rendered as `noTick`. -/
def LockedWorker.NextID (lw : LockedWorker) (clock : List Int) :
    Gen (Int × LockedWorker × List Int) :=
  if lw.locked then .noTick
  else
    let acquired : LockedWorker := { lw with locked := true }
    match acquired.worker.UnsafeNextID clock with
    | .ok (i, w', rest) => .ok (i, { worker := w', locked := false }, rest)
    | .divZero => .divZero
    | .noTick => .noTick

/-- `IDString` from `worker.go`: `str, _ := IntToString(id, w.TotalBits)`.
`IntToString` lives in another file of the repository and is passed here as a
parameter; it returns a string and a Go `error` (modelled as `Option String`,
`some` meaning a non-nil error).  `IDString` discards the error. -/
def Worker.IDString (intToString : Int → Nat → String × Option String)
    (w : Worker) (id : Int) : String :=
  (intToString id w.TotalBits).1

/-- Iterate `UnsafeNextID` `n` times, collecting the returned ids. -/
def runCalls (w : Worker) (clock : List Int) : Nat → Gen (List Int × Worker × List Int)
  | 0 => .ok ([], w, clock)
  | n + 1 =>
    match w.UnsafeNextID clock with
    | .ok (i, w', rest) =>
      match runCalls w' rest n with
      | .ok (ids, w'', rest') => .ok (i :: ids, w'', rest')
      | .divZero => .divZero
      | .noTick => .noTick
    | .divZero => .divZero
    | .noTick => .noTick

/-- The ids of a run, when it succeeds. -/
def idsOf (g : Gen (List Int × Worker × List Int)) : Option (List Int) :=
  match g with
  | .ok (ids, _, _) => some ids
  | _ => none

/-- A tick value whose epoch-relative offset fits the timestamp field. -/
abbrev TickInRange (epoch : Int) (timestampBits : Nat) (t : Int) : Prop :=
  epoch ≤ t ∧ t < epoch + 2 ^ timestampBits

/-- The configuration fields of `w'` agree with those of `w` (everything but
`Sequence` and `LastTimeStamp`). -/
abbrev SameConfig (w w' : Worker) : Prop :=
  w'.ID = w.ID ∧ w'.IDBits = w.IDBits ∧ w'.IDShift = w.IDShift ∧
  w'.SequenceBits = w.SequenceBits ∧ w'.TimeStampBits = w.TimeStampBits ∧
  w'.TimeStampShift = w.TimeStampShift ∧ w'.Frequency = w.Frequency ∧
  w'.TotalBits = w.TotalBits ∧ w'.CustomEpoch = w.CustomEpoch

/-- The exact (unwrapped) numeric value the generator's state encodes:
timestamp offset in the high field, worker id in the middle, sequence low.
When no field overflows, the returned id equals `idVal` of the post-call
state, and `idVal` strictly increases from call to call. -/
def idVal (w : Worker) : Int :=
  (w.LastTimeStamp - w.CustomEpoch) * 2 ^ (w.SequenceBits + w.IDBits)
    + w.ID * 2 ^ w.SequenceBits + w.Sequence

/-- Concrete worker: `NewWorker 0 0 0 0 5 1 0` (idBits 0, sequenceBits 0,
timestampBits 5, so totalBits = 6). -/
def wBase : Worker :=
  { ID := 0, IDBits := 0, IDShift := 0, Sequence := 0, SequenceBits := 0,
    LastTimeStamp := 0, TimeStampBits := 5, TimeStampShift := 0, Frequency := 1,
    TotalBits := 6, CustomEpoch := 0 }

/-- `wBase` after the clock has been observed at tick 5. -/
def wBack : Worker :=
  { ID := 0, IDBits := 0, IDShift := 0, Sequence := 0, SequenceBits := 0,
    LastTimeStamp := 5, TimeStampBits := 5, TimeStampShift := 0, Frequency := 1,
    TotalBits := 6, CustomEpoch := 0 }

/-- Concrete worker: `NewWorker 0 0 0 4 61 1 0` (idBits 0, sequenceBits 4,
timestampBits 61, totalBits = 66, divisible by 6, so construction accepts
it).  Its timestamp field is wide enough that in-range int64 tick readings
overflow the composed id. -/
def wOvf : Worker :=
  { ID := 0, IDBits := 0, IDShift := 4, Sequence := 0, SequenceBits := 4,
    LastTimeStamp := 0, TimeStampBits := 61, TimeStampShift := 4, Frequency := 1,
    TotalBits := 66, CustomEpoch := 0 }

/-- Concrete worker: `NewWorker 0 0 0 64 1 1 0` (idBits 0, sequenceBits 64,
timestampBits 1, totalBits = 66, divisible by 6, so construction accepts
it).  `1 << 64` is the int64 value 0, so a same-tick call divides by zero. -/
def wSeq64 : Worker :=
  { ID := 0, IDBits := 0, IDShift := 64, Sequence := 0, SequenceBits := 64,
    LastTimeStamp := 0, TimeStampBits := 1, TimeStampShift := 64, Frequency := 1,
    TotalBits := 66, CustomEpoch := 0 }

/-- Concrete worker mid-life: sequenceBits 2, timestampBits 3, sequence 1,
last tick 4 (a state `NewWorker 0 0 0 2 3 1 0` reaches after calls). -/
def wMid : Worker :=
  { ID := 0, IDBits := 0, IDShift := 2, Sequence := 1, SequenceBits := 2,
    LastTimeStamp := 4, TimeStampBits := 3, TimeStampShift := 2, Frequency := 1,
    TotalBits := 6, CustomEpoch := 0 }

/-- `wBase` after one call consuming readings 0 and 1. -/
def wBaseFin1 : Worker :=
  { ID := 0, IDBits := 0, IDShift := 0, Sequence := 0, SequenceBits := 0,
    LastTimeStamp := 1, TimeStampBits := 5, TimeStampShift := 0, Frequency := 1,
    TotalBits := 6, CustomEpoch := 0 }

/-- `wBase` after two calls over the trace `[0, 1, 2, 3]`. -/
def wBaseRun2 : Worker :=
  { ID := 0, IDBits := 0, IDShift := 0, Sequence := 0, SequenceBits := 0,
    LastTimeStamp := 2, TimeStampBits := 5, TimeStampShift := 0, Frequency := 1,
    TotalBits := 6, CustomEpoch := 0 }

/-- `wBase` after three calls over the trace `[0, 1, 2, 3]`. -/
def wBaseRun3 : Worker :=
  { ID := 0, IDBits := 0, IDShift := 0, Sequence := 0, SequenceBits := 0,
    LastTimeStamp := 3, TimeStampBits := 5, TimeStampShift := 0, Frequency := 1,
    TotalBits := 6, CustomEpoch := 0 }

/-- `wBack` after a call that found the clock rolled back to tick 3. -/
def wBackFin : Worker :=
  { ID := 0, IDBits := 0, IDShift := 0, Sequence := 0, SequenceBits := 0,
    LastTimeStamp := 3, TimeStampBits := 5, TimeStampShift := 0, Frequency := 1,
    TotalBits := 6, CustomEpoch := 0 }

/-- `wMid` after one same-tick call (sequence 1 → 2). -/
def wMidFin : Worker :=
  { ID := 0, IDBits := 0, IDShift := 2, Sequence := 2, SequenceBits := 2,
    LastTimeStamp := 4, TimeStampBits := 3, TimeStampShift := 2, Frequency := 1,
    TotalBits := 6, CustomEpoch := 0 }

/-- Result of `NewWorker 0 0 (2^64 - 1) 0 0 1 0`: the uint64 sum
`(2^64 - 1) + 0 + 0 + 1` wraps to `totalBits = 0`, which 6 divides, so
construction succeeds although the unwrapped sum `2^64` is not divisible
by 6. -/
def wSumWrap : Worker :=
  { ID := 0, IDBits := 2 ^ 64 - 1, IDShift := 0, Sequence := 0, SequenceBits := 0,
    LastTimeStamp := 0, TimeStampBits := 0, TimeStampShift := 2 ^ 64 - 1,
    Frequency := 1, TotalBits := 0, CustomEpoch := 0 }

/-- Result of `NewWorker 0 0 (2^64 - 1) 1 5 1 0`: validation passes (the
uint64 `totalBits` wraps to 6), and the derived `TimeStampShift` is the
uint64 sum `1 + (2^64 - 1)` wrapped to 0 — not the unwrapped
`sequenceBits + idBits = 2^64`. -/
def wShiftWrap : Worker :=
  { ID := 0, IDBits := 2 ^ 64 - 1, IDShift := 1, Sequence := 0, SequenceBits := 1,
    LastTimeStamp := 0, TimeStampBits := 5, TimeStampShift := 0,
    Frequency := 1, TotalBits := 6, CustomEpoch := 0 }

/-- `wShiftWrap` after one call at tick 1. -/
def wShiftWrapFin : Worker :=
  { ID := 0, IDBits := 2 ^ 64 - 1, IDShift := 1, Sequence := 0, SequenceBits := 1,
    LastTimeStamp := 1, TimeStampBits := 5, TimeStampShift := 0,
    Frequency := 1, TotalBits := 6, CustomEpoch := 0 }

/-! ## Arithmetic facts about the int64 model -/

theorem wrap64_eq_of_bounds (x : Int) (h0 : -(2 ^ 63) ≤ x) (h1 : x < 2 ^ 63) :
    wrap64 x = x := by
  unfold wrap64
  rw [Int.emod_eq_of_lt (by omega) (by omega)]
  omega

theorem uns64_eq (x : Int) (h0 : 0 ≤ x) (h1 : x < 2 ^ 64) :
    uns64 x = x.toNat := by
  unfold uns64
  rw [Int.emod_eq_of_lt h0 h1]

theorem int_two_pow_le {m n : Nat} (h : m ≤ n) : (2 : Int) ^ m ≤ 2 ^ n :=
  pow_le_pow_right₀ (by norm_num) h

theorem shl64_eq (x : Int) (s : Nat) (h0 : 0 ≤ x) (h1 : x * 2 ^ s < 2 ^ 63) :
    shl64 x s = x * 2 ^ s := by
  unfold shl64
  exact wrap64_eq_of_bounds _
    (le_trans (by norm_num) (mul_nonneg h0 (by positivity))) h1

theorem or64_disjoint (a b : Int) (k : Nat) (hk : k ≤ 63)
    (hd : (2 ^ k : Int) ∣ a) (ha : 0 ≤ a) (hb : 0 ≤ b) (hbk : b < 2 ^ k)
    (hsum : a + b < 2 ^ 63) : or64 a b = a + b := by
  have hk63 : (2 : Int) ^ k ≤ 2 ^ 63 := int_two_pow_le hk
  have ha63 : a < 2 ^ 63 := by omega
  have hb63 : b < 2 ^ 63 := lt_of_lt_of_le hbk hk63
  have haA : ((a.toNat : Int)) = a := Int.toNat_of_nonneg ha
  have hbB : ((b.toNat : Int)) = b := Int.toNat_of_nonneg hb
  have hdvdnat : 2 ^ k ∣ a.toNat := by
    have : ((2 ^ k : Nat) : Int) ∣ (a.toNat : Int) := by
      rw [haA]; exact_mod_cast hd
    exact_mod_cast this
  have hBk : b.toNat < 2 ^ k := by
    have : ((b.toNat : Int)) < ((2 ^ k : Nat) : Int) := by
      rw [hbB]; exact_mod_cast hbk
    exact_mod_cast this
  have hA : 2 ^ k * (a.toNat / 2 ^ k) = a.toNat := Nat.mul_div_cancel' hdvdnat
  have hor : a.toNat + b.toNat = Nat.lor a.toNat b.toNat := by
    have := Nat.mul_add_lt_is_or hBk (a.toNat / 2 ^ k)
    rw [hA] at this
    exact this
  unfold or64
  rw [uns64_eq a ha (by omega), uns64_eq b hb (by omega), ← hor]
  have : (Int.ofNat (a.toNat + b.toNat)) = a + b := by
    simp only [Int.ofNat_eq_natCast, Nat.cast_add, haA, hbB]
  rw [this]
  exact wrap64_eq_of_bounds _ (by omega) hsum

theorem compose_pure (a wid q : Int) (s d b : Nat)
    (hbits : d + s + b ≤ 62)
    (ha0 : 0 ≤ a) (ha1 : a < 2 ^ b)
    (hid0 : 0 ≤ wid) (hid1 : wid < 2 ^ d)
    (hq0 : 0 ≤ q) (hq1 : q < 2 ^ s) :
    or64 (or64 (shl64 a (s + d)) (shl64 wid s)) q
      = a * 2 ^ (s + d) + wid * 2 ^ s + q := by
  have hsd62 : (2 : Int) ^ (s + d) ≤ 2 ^ 62 := int_two_pow_le (by omega)
  have hb62 : (2 : Int) ^ b ≤ 2 ^ 62 := int_two_pow_le (by omega)
  have hbsd : (2 : Int) ^ (b + (s + d)) ≤ 2 ^ 62 := int_two_pow_le (by omega)
  have hs62 : (2 : Int) ^ s ≤ 2 ^ 62 := int_two_pow_le (by omega)
  have hpos_sd : (0 : Int) < 2 ^ (s + d) := by positivity
  have hpos_s : (0 : Int) < 2 ^ s := by positivity
  have hpow_mul : (2 : Int) ^ b * 2 ^ (s + d) = 2 ^ (b + (s + d)) :=
    (pow_add 2 b (s + d)).symm
  have hds : (2 : Int) ^ d * 2 ^ s = 2 ^ (s + d) := by
    rw [← pow_add, Nat.add_comm]
  have hXle : a * 2 ^ (s + d) ≤ (2 ^ b - 1) * 2 ^ (s + d) :=
    mul_le_mul_of_nonneg_right (by omega) (le_of_lt hpos_sd)
  have hXle' : ((2 : Int) ^ b - 1) * 2 ^ (s + d) = 2 ^ (b + (s + d)) - 2 ^ (s + d) := by
    rw [sub_mul, one_mul, hpow_mul]
  have hX63 : a * 2 ^ (s + d) < 2 ^ 63 := by
    rw [hXle'] at hXle
    linarith
  have hYle : wid * 2 ^ s ≤ (2 ^ d - 1) * 2 ^ s :=
    mul_le_mul_of_nonneg_right (by omega) (le_of_lt hpos_s)
  have hYle' : ((2 : Int) ^ d - 1) * 2 ^ s = 2 ^ (s + d) - 2 ^ s := by
    rw [sub_mul, one_mul, hds]
  have hYsd : wid * 2 ^ s < 2 ^ (s + d) := by
    rw [hYle'] at hYle
    linarith
  have hY63 : wid * 2 ^ s < 2 ^ 63 := by linarith
  have hX0 : 0 ≤ a * 2 ^ (s + d) := mul_nonneg ha0 (le_of_lt hpos_sd)
  have hY0 : 0 ≤ wid * 2 ^ s := mul_nonneg hid0 (le_of_lt hpos_s)
  rw [shl64_eq a (s + d) ha0 hX63, shl64_eq wid s hid0 hY63]
  have hsum1 : a * 2 ^ (s + d) + wid * 2 ^ s < 2 ^ 63 := by
    rw [hXle'] at hXle
    linarith
  rw [or64_disjoint _ _ (s + d) (by omega) (dvd_mul_left _ _) hX0 hY0 hYsd hsum1]
  have hfact : a * 2 ^ (s + d) + wid * 2 ^ s = (a * 2 ^ d + wid) * 2 ^ s := by
    rw [← hds]; ring
  have hsum2 : a * 2 ^ (s + d) + wid * 2 ^ s + q < 2 ^ 63 := by
    have h63 : (2 : Int) ^ 63 = 2 ^ 62 + 2 ^ 62 := by norm_num
    rw [hXle'] at hXle
    linarith
  rw [or64_disjoint _ _ s (by omega) (hfact ▸ dvd_mul_left _ _)
    (by linarith) hq0 hq1 hsum2]

/-- On a worker whose shift fields carry their construction-time values and
whose fields all fit (total bit budget ≤ 63 with the sign bit), composing an
id is exact field packing: no wraparound, and `or` is addition. -/
theorem composeID_eq_add (w : Worker) (t q : Int)
    (hsh : w.IDShift = w.SequenceBits)
    (hts : w.TimeStampShift = w.SequenceBits + w.IDBits)
    (hbits : w.IDBits + w.SequenceBits + w.TimeStampBits ≤ 62)
    (hid0 : 0 ≤ w.ID) (hid1 : w.ID < 2 ^ w.IDBits)
    (hq0 : 0 ≤ q) (hq1 : q < 2 ^ w.SequenceBits)
    (ht : TickInRange w.CustomEpoch w.TimeStampBits t) :
    w.composeID t q
      = (t - w.CustomEpoch) * 2 ^ (w.SequenceBits + w.IDBits)
          + w.ID * 2 ^ w.SequenceBits + q := by
  obtain ⟨ht0, ht1⟩ := ht
  have hb62 : (2 : Int) ^ w.TimeStampBits ≤ 2 ^ 62 := int_two_pow_le (by omega)
  have hsubeq : sub64 t w.CustomEpoch = t - w.CustomEpoch :=
    wrap64_eq_of_bounds _ (by omega) (by omega)
  unfold Worker.composeID
  rw [hsh, hts, hsubeq]
  exact compose_pure (t - w.CustomEpoch) w.ID q w.SequenceBits w.IDBits
    w.TimeStampBits (by omega) (by omega) (by omega) hid0 hid1 hq0 hq1

/-! ## Structure of one generation call -/


theorem waitAux_spec (last : Int) (clock : List Int) (ts : Int) (rest : List Int)
    (h : waitAux last clock = some (ts, rest)) :
    last < ts ∧ (ts :: rest).Sublist clock := by
  induction clock generalizing ts rest with
  | nil => simp [waitAux] at h
  | cons t cl ih =>
    rw [waitAux] at h
    by_cases hle : t ≤ last
    · rw [if_pos hle] at h
      obtain ⟨h1, h2⟩ := ih ts rest h
      exact ⟨h1, h2.cons t⟩
    · rw [if_neg hle] at h
      obtain ⟨rfl, rfl⟩ : t = ts ∧ cl = rest := by
        simpa using h
      exact ⟨not_le.mp hle, List.Sublist.refl _⟩

theorem waitForNextTime_spec (w : Worker) (clock : List Int) (w' : Worker)
    (rest : List Int) (h : w.waitForNextTime clock = some (w', rest)) :
    w.LastTimeStamp < w'.LastTimeStamp ∧
    (w'.LastTimeStamp :: rest).Sublist clock ∧
    w' = { w with LastTimeStamp := w'.LastTimeStamp } ∧
    waitAux w.LastTimeStamp clock = some (w'.LastTimeStamp, rest) := by
  unfold Worker.waitForNextTime at h
  cases haux : waitAux w.LastTimeStamp clock with
  | none => rw [haux] at h; exact absurd h (by simp)
  | some p =>
    rw [haux] at h
    obtain ⟨ts, rest0⟩ := p
    obtain ⟨rfl, rfl⟩ : ({ w with LastTimeStamp := ts } : Worker) = w' ∧ rest0 = rest := by
      simpa using h
    obtain ⟨h1, h2⟩ := waitAux_spec _ _ _ _ haux
    refine ⟨h1, h2, rfl, ?_⟩
    simpa using haux

theorem sameConfig_refl (w : Worker) : SameConfig w w :=
  ⟨rfl, rfl, rfl, rfl, rfl, rfl, rfl, rfl, rfl⟩

theorem sameConfig_trans {w1 w2 w3 : Worker} (h : SameConfig w1 w2)
    (h' : SameConfig w2 w3) : SameConfig w1 w3 := by
  obtain ⟨a1, a2, a3, a4, a5, a6, a7, a8, a9⟩ := h
  obtain ⟨b1, b2, b3, b4, b5, b6, b7, b8, b9⟩ := h'
  exact ⟨b1.trans a1, b2.trans a2, b3.trans a3, b4.trans a4, b5.trans a5,
    b6.trans a6, b7.trans a7, b8.trans a8, b9.trans a9⟩

theorem composeID_congr {w w' : Worker} (h : SameConfig w w') (t q : Int) :
    w'.composeID t q = w.composeID t q := by
  obtain ⟨a1, a2, a3, a4, a5, a6, a7, a8, a9⟩ := h
  unfold Worker.composeID
  rw [a1, a3, a6, a9]

theorem sequenceStep_cases (w1 : Worker) (t : Int) (rest1 : List Int) (i : Int)
    (w' : Worker) (rest' : List Int)
    (hok : w1.sequenceStep t rest1 = .ok (i, w', rest')) :
    i = w1.composeID w'.LastTimeStamp w'.Sequence ∧
    SameConfig w1 w' ∧
    ((w1.LastTimeStamp = t ∧ shl64 1 w1.SequenceBits ≠ 0 ∧
        w'.Sequence = Int.tmod (add64 w1.Sequence 1) (shl64 1 w1.SequenceBits) ∧
        ((w'.Sequence ≠ 0 ∧ w'.LastTimeStamp = t ∧ rest' = rest1) ∨
         (w'.Sequence = 0 ∧
           waitAux t rest1 = some (w'.LastTimeStamp, rest') ∧
           t < w'.LastTimeStamp))) ∨
     (w1.LastTimeStamp ≠ t ∧ w'.Sequence = 0 ∧ w'.LastTimeStamp = t ∧
       rest' = rest1)) := by
  by_cases heq : w1.LastTimeStamp = t
  · by_cases hm : shl64 1 w1.SequenceBits = 0
    · simp [Worker.sequenceStep, if_pos heq, hm] at hok
    · by_cases hz : Int.tmod (add64 w1.Sequence 1) (shl64 1 w1.SequenceBits) = 0
      · simp only [Worker.sequenceStep, if_pos heq, if_neg hm, if_pos hz] at hok
        cases hwait : Worker.waitForNextTime
            { w1 with
              Sequence := Int.tmod (add64 w1.Sequence 1) (shl64 1 w1.SequenceBits) }
            rest1 with
        | none => rw [hwait] at hok; exact absurd hok (by simp)
        | some p =>
          rw [hwait] at hok
          obtain ⟨w3, rest2⟩ := p
          obtain ⟨hI, hW, hR⟩ :
              w3.composeID w3.LastTimeStamp w3.Sequence = i ∧ w3 = w' ∧
                rest2 = rest' := by
            simpa using hok
          obtain ⟨hlt, hsub, hw3, haux⟩ := waitForNextTime_spec _ _ _ _ hwait
          have hlt' : w1.LastTimeStamp < w3.LastTimeStamp := hlt
          have haux' : waitAux w1.LastTimeStamp rest1 =
              some (w3.LastTimeStamp, rest2) := haux
          have hcfg : SameConfig w1 w3 := by
            rw [hw3]
            exact ⟨rfl, rfl, rfl, rfl, rfl, rfl, rfl, rfl, rfl⟩
          have hseq3 : w3.Sequence =
              Int.tmod (add64 w1.Sequence 1) (shl64 1 w1.SequenceBits) := by
            rw [hw3]
          refine ⟨?_, ?_, Or.inl ⟨heq, hm, ?_, Or.inr ⟨?_, ?_, ?_⟩⟩⟩
          · rw [← hI, ← hW]
            exact composeID_congr hcfg _ _
          · rw [← hW]; exact hcfg
          · rw [← hW]; exact hseq3
          · rw [← hW]; rw [hseq3]; exact hz
          · rw [← hW, ← hR, ← heq]; exact haux'
          · rw [← hW, ← heq]; exact hlt'
      · simp only [Worker.sequenceStep, if_pos heq, if_neg hm, if_neg hz] at hok
        obtain ⟨hI, hW, hR⟩ :
            Worker.composeID
                { w1 with
                  Sequence := Int.tmod (add64 w1.Sequence 1) (shl64 1 w1.SequenceBits),
                  LastTimeStamp := t } t
                (Int.tmod (add64 w1.Sequence 1) (shl64 1 w1.SequenceBits)) = i ∧
              ({ w1 with
                 Sequence := Int.tmod (add64 w1.Sequence 1) (shl64 1 w1.SequenceBits),
                 LastTimeStamp := t } : Worker) = w' ∧ rest1 = rest' := by
          simpa using hok
        have hcfgL : SameConfig w1
            ({ w1 with
               Sequence := Int.tmod (add64 w1.Sequence 1) (shl64 1 w1.SequenceBits),
               LastTimeStamp := t } : Worker) :=
          ⟨rfl, rfl, rfl, rfl, rfl, rfl, rfl, rfl, rfl⟩
        have hcfg : SameConfig w1 w' := by
          rw [← hW]
          exact hcfgL
        have hLTS : w'.LastTimeStamp = t := by rw [← hW]
        have hSeq : w'.Sequence =
            Int.tmod (add64 w1.Sequence 1) (shl64 1 w1.SequenceBits) := by
          rw [← hW]
        refine ⟨?_, hcfg, Or.inl ⟨heq, hm, hSeq, Or.inl ⟨?_, hLTS, hR.symm⟩⟩⟩
        · rw [hLTS, hSeq, ← hI]
          exact composeID_congr hcfgL _ _
        · rw [hSeq]; exact hz
  · simp only [Worker.sequenceStep, if_neg heq] at hok
    obtain ⟨hI, hW, hR⟩ :
        Worker.composeID ({ w1 with Sequence := 0, LastTimeStamp := t }) t 0 = i ∧
          ({ w1 with Sequence := 0, LastTimeStamp := t } : Worker) = w' ∧
          rest1 = rest' := by
      simpa using hok
    have hcfgL : SameConfig w1
        ({ w1 with Sequence := 0, LastTimeStamp := t } : Worker) :=
      ⟨rfl, rfl, rfl, rfl, rfl, rfl, rfl, rfl, rfl⟩
    have hcfg : SameConfig w1 w' := by
      rw [← hW]
      exact hcfgL
    have hLTS : w'.LastTimeStamp = t := by rw [← hW]
    have hSeq : w'.Sequence = 0 := by rw [← hW]
    refine ⟨?_, hcfg, Or.inr ⟨heq, hSeq, hLTS, hR.symm⟩⟩
    rw [hLTS, hSeq, ← hI]
    exact composeID_congr hcfgL _ _

theorem nextID_cases (w : Worker) (clock : List Int) (i : Int) (w' : Worker)
    (rest : List Int) (hok : w.UnsafeNextID clock = .ok (i, w', rest)) :
    ∃ t rest0 w1 rest1, clock = t :: rest0 ∧
      ((w.LastTimeStamp ≤ t ∧ w1 = w ∧ rest1 = rest0) ∨
       (t < w.LastTimeStamp ∧ w.waitForNextTime rest0 = some (w1, rest1))) ∧
      w1.sequenceStep t rest1 = .ok (i, w', rest) := by
  cases clock with
  | nil => exact absurd hok (by simp [Worker.UnsafeNextID])
  | cons t rest0 =>
    rw [Worker.UnsafeNextID] at hok
    by_cases hgt : w.LastTimeStamp > t
    · rw [if_pos hgt] at hok
      cases hwait : w.waitForNextTime rest0 with
      | none => rw [hwait] at hok; exact absurd hok (by simp)
      | some p =>
        rw [hwait] at hok
        obtain ⟨w1, rest1⟩ := p
        exact ⟨t, rest0, w1, rest1, rfl, Or.inr ⟨hgt, hwait⟩, hok⟩
    · rw [if_neg hgt] at hok
      exact ⟨t, rest0, w, rest0, rfl, Or.inl ⟨not_lt.mp hgt, rfl, rfl⟩, hok⟩

/-! ## Step-level facts -/

theorem shl64_one (s : Nat) (hs : s ≤ 62) : shl64 1 s = 2 ^ s := by
  have h := int_two_pow_le hs
  rw [shl64_eq 1 s (by norm_num) (by rw [one_mul]; omega), one_mul]

/-- A Go left shift by 64 or more bits clears the whole int64 word. -/
theorem shl64_large (x : Int) (s : Nat) (hs : 64 ≤ s) : shl64 x s = 0 := by
  obtain ⟨k, hk⟩ : (2 ^ 64 : Int) ∣ 2 ^ s := pow_dvd_pow 2 hs
  unfold shl64 wrap64
  rw [hk]
  have hre : x * (2 ^ 64 * k) + 2 ^ 63 = 2 ^ 63 + 2 ^ 64 * (x * k) := by ring
  rw [hre, Int.add_mul_emod_self_left]
  decide

theorem seq_update_bounds (s : Int) (k : Nat) (hk : k ≤ 62) (h0 : 0 ≤ s)
    (h1 : s < 2 ^ k) :
    Int.tmod (add64 s 1) (shl64 1 k) = (s + 1) % 2 ^ k ∧
    0 ≤ Int.tmod (add64 s 1) (shl64 1 k) ∧
    Int.tmod (add64 s 1) (shl64 1 k) < 2 ^ k := by
  have hk' : (2 : Int) ^ k ≤ 2 ^ 62 := int_two_pow_le hk
  have hkpos : (0 : Int) < 2 ^ k := by positivity
  have hadd : add64 s 1 = s + 1 := wrap64_eq_of_bounds _ (by omega) (by omega)
  rw [shl64_one k hk, hadd, Int.tmod_eq_emod (by omega) (by omega)]
  exact ⟨rfl, Int.emod_nonneg _ (by omega), Int.emod_lt_of_pos _ hkpos⟩

/-- Every successful call returns the id composed (lines 92-94) from the
post-call `LastTimeStamp` and `Sequence`, and never touches the
configuration fields. -/
theorem step_compose_frame (w : Worker) (clock : List Int) (i : Int)
    (w' : Worker) (rest : List Int)
    (hok : w.UnsafeNextID clock = .ok (i, w', rest)) :
    i = w.composeID w'.LastTimeStamp w'.Sequence ∧ SameConfig w w' := by
  obtain ⟨t, rest0, w1, rest1, hcl, hbr, hstep⟩ := nextID_cases _ _ _ _ _ hok
  obtain ⟨hI, hcfg1, -⟩ := sequenceStep_cases _ _ _ _ _ _ hstep
  rcases hbr with ⟨-, rfl, rfl⟩ | ⟨-, hwait⟩
  · exact ⟨hI, hcfg1⟩
  · obtain ⟨-, -, hw1, -⟩ := waitForNextTime_spec _ _ _ _ hwait
    have hcfg0 : SameConfig w w1 := by
      rw [hw1]
      exact ⟨rfl, rfl, rfl, rfl, rfl, rfl, rfl, rfl, rfl⟩
    refine ⟨?_, sameConfig_trans hcfg0 hcfg1⟩
    rw [hI]
    exact composeID_congr hcfg0 _ _

/-- On every successful call (including after a backward clock), the
post-call `Sequence` stays within `[0, 2^SequenceBits)` provided it was
in range at entry and `SequenceBits ≤ 62`. -/
theorem step_seq_bounds (w : Worker) (clock : List Int) (i : Int) (w' : Worker)
    (rest : List Int) (hk : w.SequenceBits ≤ 62)
    (hseq0 : 0 ≤ w.Sequence) (hseq1 : w.Sequence < 2 ^ w.SequenceBits)
    (hok : w.UnsafeNextID clock = .ok (i, w', rest)) :
    0 ≤ w'.Sequence ∧ w'.Sequence < 2 ^ w.SequenceBits := by
  have hkpos : (0 : Int) < 2 ^ w.SequenceBits := by positivity
  obtain ⟨t, rest0, w1, rest1, hcl, hbr, hstep⟩ := nextID_cases _ _ _ _ _ hok
  have hW1 : w1.Sequence = w.Sequence ∧ w1.SequenceBits = w.SequenceBits := by
    rcases hbr with ⟨-, rfl, rfl⟩ | ⟨-, hwait⟩
    · exact ⟨rfl, rfl⟩
    · obtain ⟨-, -, hw1, -⟩ := waitForNextTime_spec _ _ _ _ hwait
      rw [hw1]
      exact ⟨rfl, rfl⟩
  obtain ⟨-, -, hdisj⟩ := sequenceStep_cases _ _ _ _ _ _ hstep
  rcases hdisj with ⟨-, -, hseq', -⟩ | ⟨-, hseq', -, -⟩
  · rw [hseq', hW1.1, hW1.2]
    obtain ⟨-, hb0, hb1⟩ := seq_update_bounds w.Sequence w.SequenceBits hk hseq0 hseq1
    exact ⟨hb0, hb1⟩
  · rw [hseq']
    exact ⟨le_refl 0, hkpos⟩

theorem idVal_lt_of_tick_lt (w w' : Worker) (hcfg : SameConfig w w')
    (hseq1 : w.Sequence < 2 ^ w.SequenceBits)
    (hseq0' : 0 ≤ w'.Sequence)
    (hlt : w.LastTimeStamp < w'.LastTimeStamp) :
    idVal w < idVal w' := by
  obtain ⟨a1, a2, a3, a4, a5, a6, a7, a8, a9⟩ := hcfg
  unfold idVal
  rw [a1, a2, a4, a9]
  have hP : (0 : Int) < 2 ^ (w.SequenceBits + w.IDBits) := by positivity
  have hkP : (2 : Int) ^ w.SequenceBits ≤ 2 ^ (w.SequenceBits + w.IDBits) :=
    int_two_pow_le (Nat.le_add_right _ _)
  have hmul : (w.LastTimeStamp - w.CustomEpoch + 1) * 2 ^ (w.SequenceBits + w.IDBits)
      ≤ (w'.LastTimeStamp - w.CustomEpoch) * 2 ^ (w.SequenceBits + w.IDBits) :=
    mul_le_mul_of_nonneg_right (by omega) (le_of_lt hP)
  have hdist : (w.LastTimeStamp - w.CustomEpoch + 1) * 2 ^ (w.SequenceBits + w.IDBits)
      = (w.LastTimeStamp - w.CustomEpoch) * 2 ^ (w.SequenceBits + w.IDBits)
        + 2 ^ (w.SequenceBits + w.IDBits) := by ring
  linarith

theorem idVal_lt_of_seq_lt (w w' : Worker) (hcfg : SameConfig w w')
    (hl : w'.LastTimeStamp = w.LastTimeStamp)
    (hseq : w.Sequence < w'.Sequence) :
    idVal w < idVal w' := by
  obtain ⟨a1, a2, a3, a4, a5, a6, a7, a8, a9⟩ := hcfg
  unfold idVal
  rw [a1, a2, a4, a9, hl]
  linarith

theorem composeID_eq_idVal (w w' : Worker) (hcfg : SameConfig w w')
    (hsh : w.IDShift = w.SequenceBits)
    (hts : w.TimeStampShift = w.SequenceBits + w.IDBits)
    (hbits : w.IDBits + w.SequenceBits + w.TimeStampBits ≤ 62)
    (hid0 : 0 ≤ w.ID) (hid1 : w.ID < 2 ^ w.IDBits)
    (hq0 : 0 ≤ w'.Sequence) (hq1 : w'.Sequence < 2 ^ w.SequenceBits)
    (ht : TickInRange w.CustomEpoch w.TimeStampBits w'.LastTimeStamp) :
    w.composeID w'.LastTimeStamp w'.Sequence = idVal w' := by
  rw [composeID_eq_add w _ _ hsh hts hbits hid0 hid1 hq0 hq1 ht]
  obtain ⟨a1, a2, a3, a4, a5, a6, a7, a8, a9⟩ := hcfg
  unfold idVal
  rw [a1, a2, a4, a9]

/-- The central invariant-preservation lemma: one successful call under a
non-decreasing, field-in-range clock trace keeps the configuration, keeps the
sequence in range, adopts an in-range tick, leaves the remaining trace above
the new `LastTimeStamp`, and strictly increases `idVal`; the returned id is
exactly `idVal` of the post-call state. -/
theorem step_spec (w : Worker) (clock : List Int) (i : Int) (w' : Worker)
    (rest : List Int)
    (hsh : w.IDShift = w.SequenceBits)
    (hts : w.TimeStampShift = w.SequenceBits + w.IDBits)
    (hbits : w.IDBits + w.SequenceBits + w.TimeStampBits ≤ 62)
    (hid0 : 0 ≤ w.ID) (hid1 : w.ID < 2 ^ w.IDBits)
    (hseq0 : 0 ≤ w.Sequence) (hseq1 : w.Sequence < 2 ^ w.SequenceBits)
    (hpw : clock.Pairwise (· ≤ ·))
    (hge : ∀ x ∈ clock, w.LastTimeStamp ≤ x)
    (hin : ∀ x ∈ clock, TickInRange w.CustomEpoch w.TimeStampBits x)
    (hok : w.UnsafeNextID clock = .ok (i, w', rest)) :
    SameConfig w w' ∧
    (0 ≤ w'.Sequence ∧ w'.Sequence < 2 ^ w.SequenceBits) ∧
    TickInRange w.CustomEpoch w.TimeStampBits w'.LastTimeStamp ∧
    rest.Sublist clock ∧ (∀ x ∈ rest, w'.LastTimeStamp ≤ x) ∧
    idVal w < idVal w' ∧ i = idVal w' := by
  have hk62 : w.SequenceBits ≤ 62 := by omega
  obtain ⟨t, rest0, w1, rest1, hcl, hbr, hstep⟩ := nextID_cases _ _ _ _ _ hok
  subst hcl
  have hht : w.LastTimeStamp ≤ t := hge t (List.mem_cons_self t rest0)
  have hbounds : 0 ≤ w'.Sequence ∧ w'.Sequence < 2 ^ w.SequenceBits :=
    step_seq_bounds w (t :: rest0) i w' rest hk62 hseq0 hseq1 hok
  have hpw0 : rest0.Pairwise (· ≤ ·) := (List.pairwise_cons.mp hpw).2
  have hge0 : ∀ x ∈ rest0, t ≤ x := (List.pairwise_cons.mp hpw).1
  rcases hbr with ⟨-, hw1, hr1⟩ | ⟨hlt2, -⟩
  swap
  · omega
  rw [hw1, hr1] at hstep
  obtain ⟨hI, hcfg, hdisj⟩ := sequenceStep_cases _ _ _ _ _ _ hstep
  rcases hdisj with ⟨heq, hm, hseq', hsub2⟩ | ⟨hne, hseq'0, hLTS', hr2⟩
  · rcases hsub2 with ⟨hnz, hLTS', hr2⟩ | ⟨hz0, haux, hlt3⟩
    · -- same tick, sequence incremented without wraparound
      subst hr2
      have hran : TickInRange w.CustomEpoch w.TimeStampBits w'.LastTimeStamp := by
        rw [hLTS']
        exact hin t (List.mem_cons_self t _)
      have hidlt : idVal w < idVal w' := by
        apply idVal_lt_of_seq_lt w w' hcfg (by rw [hLTS', heq])
        obtain ⟨hm0, -, -⟩ := seq_update_bounds w.Sequence w.SequenceBits hk62 hseq0 hseq1
        rcases lt_or_eq_of_le (by omega : w.Sequence + 1 ≤ 2 ^ w.SequenceBits)
          with hlt4 | heq4
        · rw [hseq', hm0, Int.emod_eq_of_lt (by omega) hlt4]
          omega
        · exfalso
          apply hnz
          rw [hseq', hm0, heq4, Int.emod_self]
      refine ⟨hcfg, hbounds, hran,
        List.Sublist.cons t (List.Sublist.refl _), ?_, hidlt, ?_⟩
      · intro x hx
        rw [hLTS']
        exact hge0 x hx
      · rw [hI]
        exact composeID_eq_idVal w w' hcfg hsh hts hbits hid0 hid1
          hbounds.1 hbounds.2 hran
    · -- same tick, sequence exhausted: drift-wait to a later tick
      obtain ⟨-, hsub3⟩ := waitAux_spec t rest0 _ _ haux
      have hmem0 : w'.LastTimeStamp ∈ rest0 :=
        List.Sublist.mem (List.mem_cons_self _ _) hsub3
      have hran : TickInRange w.CustomEpoch w.TimeStampBits w'.LastTimeStamp :=
        hin w'.LastTimeStamp (List.mem_cons_of_mem t hmem0)
      have hpw3 : (w'.LastTimeStamp :: rest).Pairwise (· ≤ ·) :=
        List.Pairwise.sublist hsub3 hpw0
      have hrest1 : rest.Sublist rest0 :=
        (List.Sublist.cons _ (List.Sublist.refl rest)).trans hsub3
      refine ⟨hcfg, hbounds, hran,
        hrest1.trans (List.Sublist.cons t (List.Sublist.refl rest0)),
        (List.pairwise_cons.mp hpw3).1, ?_, ?_⟩
      · exact idVal_lt_of_tick_lt w w' hcfg hseq1 hbounds.1 (by omega)
      · rw [hI]
        exact composeID_eq_idVal w w' hcfg hsh hts hbits hid0 hid1
          hbounds.1 hbounds.2 hran
  · -- strictly newer tick: sequence reset to 0
    subst hr2
    have hran : TickInRange w.CustomEpoch w.TimeStampBits w'.LastTimeStamp := by
      rw [hLTS']
      exact hin t (List.mem_cons_self t _)
    refine ⟨hcfg, hbounds, hran,
      List.Sublist.cons t (List.Sublist.refl _), ?_, ?_, ?_⟩
    · intro x hx
      rw [hLTS']
      exact hge0 x hx
    · refine idVal_lt_of_tick_lt w w' hcfg hseq1 hbounds.1 ?_
      rw [hLTS']
      omega
    · rw [hI]
      exact composeID_eq_idVal w w' hcfg hsh hts hbits hid0 hid1
        hbounds.1 hbounds.2 hran

/-- Over any number of serialized calls under a non-decreasing, in-range
clock trace, the returned ids are strictly increasing, and all exceed the
`idVal` of the starting state. -/
theorem run_spec (n : Nat) (w : Worker) (clock : List Int) (ids : List Int)
    (w' : Worker) (rest : List Int)
    (hsh : w.IDShift = w.SequenceBits)
    (hts : w.TimeStampShift = w.SequenceBits + w.IDBits)
    (hbits : w.IDBits + w.SequenceBits + w.TimeStampBits ≤ 62)
    (hid0 : 0 ≤ w.ID) (hid1 : w.ID < 2 ^ w.IDBits)
    (hseq0 : 0 ≤ w.Sequence) (hseq1 : w.Sequence < 2 ^ w.SequenceBits)
    (hpw : clock.Pairwise (· ≤ ·))
    (hge : ∀ x ∈ clock, w.LastTimeStamp ≤ x)
    (hin : ∀ x ∈ clock, TickInRange w.CustomEpoch w.TimeStampBits x)
    (hok : runCalls w clock n = .ok (ids, w', rest)) :
    List.Chain' (· < ·) ids ∧ (∀ x ∈ ids, idVal w < x) := by
  induction n generalizing w clock ids w' rest with
  | zero =>
    rw [runCalls] at hok
    injection hok with h
    injection h with h1 h2
    rw [← h1]
    exact ⟨List.chain'_nil, by simp⟩
  | succ n ih =>
    rw [runCalls] at hok
    cases hstep : w.UnsafeNextID clock with
    | divZero => rw [hstep] at hok; exact absurd hok (by simp)
    | noTick => rw [hstep] at hok; exact absurd hok (by simp)
    | ok p =>
      rw [hstep] at hok
      obtain ⟨i, w1, rest1⟩ := p
      dsimp only at hok
      cases hrun : runCalls w1 rest1 n with
      | divZero => rw [hrun] at hok; exact absurd hok (by simp)
      | noTick => rw [hrun] at hok; exact absurd hok (by simp)
      | ok q =>
        rw [hrun] at hok
        obtain ⟨ids1, w2, rest2⟩ := q
        dsimp only at hok
        injection hok with h
        injection h with h1 h2
        injection h2 with h3 h4
        rw [h3, h4] at hrun
        obtain ⟨hcfg, ⟨hs0, hs1⟩, hran, hsub, hge1, hidlt, hIdVal⟩ :=
          step_spec w clock i w1 rest1 hsh hts hbits hid0 hid1 hseq0 hseq1
            hpw hge hin hstep
        obtain ⟨a1, a2, a3, a4, a5, a6, a7, a8, a9⟩ := hcfg
        obtain ⟨ihc, ihlt⟩ := ih w1 rest1 ids1 w' rest
          (by rw [a3, a4]; exact hsh)
          (by rw [a6, a4, a2]; exact hts)
          (by rw [a2, a4, a5]; exact hbits)
          (by rw [a1]; exact hid0)
          (by rw [a1, a2]; exact hid1)
          hs0
          (by rw [a4]; exact hs1)
          (List.Pairwise.sublist hsub hpw)
          hge1
          (fun x hx => by
            rw [a9, a5]
            exact hin x (List.Sublist.mem hx hsub))
          hrun
        rw [← h1]
        constructor
        · refine List.chain'_cons'.mpr ⟨?_, ihc⟩
          intro y hy
          have hymem : y ∈ ids1 := List.mem_of_mem_head? hy
          rw [hIdVal]
          exact ihlt y hymem
        · intro x hx
          rcases List.mem_cons.mp hx with rfl | hx1
          · rw [hIdVal]
            exact hidlt
          · exact lt_trans hidlt (ihlt x hx1)

/-! ## Claim theorems -/

/-- C6 counterexample: with `idBits = 2^64 - 1, sequenceBits = 0,
timestampBits = 0`, the sum `idBits + sequenceBits + timestampBits + 1 = 2^64`
is not divisible by 6 (it is 4 mod 6), yet construction *succeeds*: the
constructor computes `totalBits` in uint64 arithmetic, which wraps the sum to
0, and 6 divides 0. -/
theorem construction_counterexample :
    ((2 ^ 64 - 1) + 0 + 0 + 1) % 6 ≠ 0 ∧
    NewWorker 0 0 (2 ^ 64 - 1) 0 0 1 0 = some wSumWrap := by
  refine ⟨by decide, by decide⟩

/-- C6 amended: construction fails (with the fatal configuration error,
modelled as `none`) if and only if the uint64 sum
`idBits + sequenceBits + timestampBits + 1`, computed with wraparound modulo
`2^64` as in the source, is not divisible by 6; in particular
`idBits=5, sequenceBits=13, timestampBits=40` (sum+1 = 59) is rejected and
`idBits=5, sequenceBits=13, timestampBits=41` (sum+1 = 60) is accepted. -/
theorem construction_validation :
    (∀ (id epoch : Int) (idB seqB tsB : Nat) (f t0 : Int),
        NewWorker id epoch idB seqB tsB f t0 = none ↔
          ((idB + seqB + tsB + 1) % 2 ^ 64) % 6 ≠ 0) ∧
    NewWorker 0 1451606400000 5 13 40 1 0 = none ∧
    (NewWorker 0 1451606400000 5 13 41 1 0).isSome = true := by
  refine ⟨?_, by decide, by decide⟩
  intro id epoch idB seqB tsB f t0
  simp only [NewWorker]
  split
  case isTrue h => simpa using h
  case isFalse h => simpa using h

/-- C8: under the serialized discipline (mutex free at entry), `NextID` is
exactly `UnsafeNextID` run under the lock: it returns the same id, leaves the
worker in the same final state, and the mutex is released again on the
successful exit (and the panic exit propagates after the deferred unlock). -/
theorem safe_refines_unlocked (lw : LockedWorker) (clock : List Int)
    (h : lw.locked = false) :
    lw.NextID clock =
      match lw.worker.UnsafeNextID clock with
      | .ok (i, w', rest) => .ok (i, { worker := w', locked := false }, rest)
      | .divZero => .divZero
      | .noTick => .noTick := by
  cases hU : lw.worker.UnsafeNextID clock with
  | ok p =>
    obtain ⟨i, w', rest⟩ := p
    simp [LockedWorker.NextID, h, hU]
  | divZero => simp [LockedWorker.NextID, h, hU]
  | noTick => simp [LockedWorker.NextID, h, hU]

/-- Witness for C8: a concrete serialized `NextID` call on `wBase`. -/
theorem safe_refines_unlocked_witness :
    (⟨wBase, false⟩ : LockedWorker).NextID [0, 1, 2] =
      match wBase.UnsafeNextID [0, 1, 2] with
      | .ok (i, w', rest) => .ok (i, { worker := w', locked := false }, rest)
      | .divZero => .divZero
      | .noTick => .noTick :=
  safe_refines_unlocked ⟨wBase, false⟩ [0, 1, 2] (by decide)

/-- C9: `IDString` returns the string component of `IntToString id w.TotalBits`
unconditionally, discarding the error component: two encoders that agree on
strings but differ arbitrarily in their reported errors give the same output,
and no failure is ever signalled (the result type is a plain string). -/
theorem idString_discards_error
    (intToString intToString' : Int → Nat → String × Option String)
    (w : Worker) (id : Int)
    (hagree : ∀ x b, (intToString x b).1 = (intToString' x b).1) :
    Worker.IDString intToString w id = (intToString id w.TotalBits).1 ∧
    Worker.IDString intToString w id = Worker.IDString intToString' w id := by
  refine ⟨rfl, ?_⟩
  unfold Worker.IDString
  rw [hagree]

/-- Witness for C9: an encoder reporting no error and one reporting an error
on every input produce the same `IDString` output. -/
theorem idString_discards_error_witness :
    Worker.IDString (fun _ _ => ("ABCDEF", none)) wBase 5 =
      Worker.IDString (fun _ _ => ("ABCDEF", some "range")) wBase 5 :=
  (idString_discards_error (fun _ _ => ("ABCDEF", none))
    (fun _ _ => ("ABCDEF", some "range")) wBase 5 (fun _ _ => rfl)).2

/-- C10: a successful `UnsafeNextID` or `NextID` call leaves every
configuration field of the worker (`ID`, `IDBits`, `IDShift`, `SequenceBits`,
`TimeStampBits`, `TimeStampShift`, `Frequency`, `TotalBits`, `CustomEpoch`)
unchanged; only `Sequence` and `LastTimeStamp` are mutated. -/
theorem config_frame (w : Worker) (clock : List Int) (i : Int) (w' : Worker)
    (rest : List Int) (lw lw' : LockedWorker) :
    (w.UnsafeNextID clock = .ok (i, w', rest) → SameConfig w w') ∧
    (lw.NextID clock = .ok (i, lw', rest) → SameConfig lw.worker lw'.worker) := by
  constructor
  · intro h
    exact (step_compose_frame w clock i w' rest h).2
  · intro h
    by_cases hl : lw.locked
    · rw [LockedWorker.NextID, if_pos hl] at h
      exact absurd h (by simp)
    · have hl' : lw.locked = false := by simpa using hl
      cases hU : lw.worker.UnsafeNextID clock with
      | divZero => simp [LockedWorker.NextID, hl', hU] at h
      | noTick => simp [LockedWorker.NextID, hl', hU] at h
      | ok p =>
        obtain ⟨i0, w0, rest0⟩ := p
        rw [LockedWorker.NextID, if_neg (by simp [hl'])] at h
        dsimp only at h
        rw [hU] at h
        injection h with h'
        injection h' with h1 h2
        injection h2 with h3 h4
        have hframe : SameConfig lw.worker w0 :=
          (step_compose_frame lw.worker clock i0 w0 rest0 hU).2
        rw [← h3]
        exact hframe

theorem field_sum_bounds (a wid q : Int) (s d b : Nat)
    (ha0 : 0 ≤ a) (ha1 : a < 2 ^ b) (hid0 : 0 ≤ wid) (hid1 : wid < 2 ^ d)
    (hq0 : 0 ≤ q) (hq1 : q < 2 ^ s) :
    0 ≤ a * 2 ^ (s + d) + wid * 2 ^ s + q ∧
    a * 2 ^ (s + d) + wid * 2 ^ s + q < 2 ^ (d + s + b) := by
  have hpos_sd : (0 : Int) < 2 ^ (s + d) := by positivity
  have hpos_s : (0 : Int) < 2 ^ s := by positivity
  have hXle : a * 2 ^ (s + d) ≤ (2 ^ b - 1) * 2 ^ (s + d) :=
    mul_le_mul_of_nonneg_right (by omega) (le_of_lt hpos_sd)
  have hYle : wid * 2 ^ s ≤ (2 ^ d - 1) * 2 ^ s :=
    mul_le_mul_of_nonneg_right (by omega) (le_of_lt hpos_s)
  have e1 : ((2 : Int) ^ b - 1) * 2 ^ (s + d) = 2 ^ (b + (s + d)) - 2 ^ (s + d) := by
    rw [sub_mul, one_mul, ← pow_add]
  have e2 : ((2 : Int) ^ d - 1) * 2 ^ s = 2 ^ (s + d) - 2 ^ s := by
    rw [sub_mul, one_mul, ← pow_add, Nat.add_comm d s]
  have e3 : (2 : Int) ^ (b + (s + d)) = 2 ^ (d + s + b) := by
    rw [Nat.add_comm b (s + d), Nat.add_comm s d]
  have hX0 : 0 ≤ a * 2 ^ (s + d) := mul_nonneg ha0 (le_of_lt hpos_sd)
  have hY0 : 0 ≤ wid * 2 ^ s := mul_nonneg hid0 (le_of_lt hpos_s)
  constructor
  · linarith
  · rw [e1] at hXle
    rw [e2] at hYle
    rw [← e3]
    linarith

theorem nat_field_extract (A B C s d : Nat) (hB : B < 2 ^ d) (hC : C < 2 ^ s) :
    (A * 2 ^ (s + d) + B * 2 ^ s + C) / 2 ^ (s + d) = A ∧
    (A * 2 ^ (s + d) + B * 2 ^ s + C) / 2 ^ s % 2 ^ d = B ∧
    (A * 2 ^ (s + d) + B * 2 ^ s + C) % 2 ^ s = C := by
  have hsd : (2 : Nat) ^ (s + d) = 2 ^ s * 2 ^ d := pow_add 2 s d
  have hs_pos : 0 < (2 : Nat) ^ s := by positivity
  have hsd_pos : 0 < (2 : Nat) ^ (s + d) := by positivity
  have hle : (2 : Nat) ^ s ≤ 2 ^ (s + d) :=
    Nat.pow_le_pow_right (by norm_num) (Nat.le_add_right s d)
  have hr : B * 2 ^ s + C < 2 ^ (s + d) := by
    have h1 : B * 2 ^ s ≤ (2 ^ d - 1) * 2 ^ s := Nat.mul_le_mul_right _ (by omega)
    have h2 : (2 ^ d - 1) * 2 ^ s = 2 ^ (s + d) - 2 ^ s := by
      rw [Nat.sub_mul, one_mul, hsd, Nat.mul_comm]
    omega
  have hform : A * 2 ^ (s + d) + B * 2 ^ s + C = 2 ^ s * (A * 2 ^ d + B) + C := by
    rw [hsd]; ring
  refine ⟨?_, ?_, ?_⟩
  · rw [Nat.add_assoc, Nat.mul_comm A, Nat.mul_add_div hsd_pos,
      Nat.div_eq_of_lt hr, Nat.add_zero]
  · rw [hform, Nat.mul_add_div hs_pos, Nat.div_eq_of_lt hC, Nat.add_zero,
      Nat.mul_comm A, Nat.mul_add_mod, Nat.mod_eq_of_lt hB]
  · rw [hform, Nat.mul_add_mod, Nat.mod_eq_of_lt hC]

theorem extract_fields (a wid q : Int) (s d b : Nat)
    (ha0 : 0 ≤ a) (_ha1 : a < 2 ^ b) (hid0 : 0 ≤ wid) (hid1 : wid < 2 ^ d)
    (hq0 : 0 ≤ q) (hq1 : q < 2 ^ s) :
    (a * 2 ^ (s + d) + wid * 2 ^ s + q).toNat / 2 ^ (s + d) = a.toNat ∧
    (a * 2 ^ (s + d) + wid * 2 ^ s + q).toNat / 2 ^ s % 2 ^ d = wid.toNat ∧
    (a * 2 ^ (s + d) + wid * 2 ^ s + q).toNat % 2 ^ s = q.toNat := by
  have hA : ((a.toNat : Int)) = a := Int.toNat_of_nonneg ha0
  have hB : ((wid.toNat : Int)) = wid := Int.toNat_of_nonneg hid0
  have hC : ((q.toNat : Int)) = q := Int.toNat_of_nonneg hq0
  have hBd : wid.toNat < 2 ^ d := by
    rw [← hB] at hid1
    exact_mod_cast hid1
  have hCs : q.toNat < 2 ^ s := by
    rw [← hC] at hq1
    exact_mod_cast hq1
  have hcast : a * 2 ^ (s + d) + wid * 2 ^ s + q
      = ((a.toNat * 2 ^ (s + d) + wid.toNat * 2 ^ s + q.toNat : Nat) : Int) := by
    push_cast
    rw [hA, hB, hC]
  have hN : (a * 2 ^ (s + d) + wid * 2 ^ s + q).toNat
      = a.toNat * 2 ^ (s + d) + wid.toNat * 2 ^ s + q.toNat := by
    rw [hcast, Int.toNat_natCast]
  rw [hN]
  exact nat_field_extract a.toNat wid.toNat q.toNat s d hBd hCs

/-- C3 counterexample: `idBits = 2^64 - 1, sequenceBits = 1,
timestampBits = 5` passes validation (uint64 `totalBits` wraps to 6), but the
stored `TimeStampShift` is the uint64 sum `1 + (2^64 - 1)` wrapped to 0, not
the claimed derived value `sequenceBits + idBits = 2^64`; a concrete call
returns id 1 = `(tick − epoch) << 0 | …`, while the claim's formula with
shift `2^64` evaluates to 0. -/
theorem compose_counterexample :
    NewWorker 0 0 (2 ^ 64 - 1) 1 5 1 0 = some wShiftWrap ∧
    wShiftWrap.TimeStampShift ≠ wShiftWrap.SequenceBits + wShiftWrap.IDBits ∧
    wShiftWrap.UnsafeNextID [1] = .ok (1, wShiftWrapFin, []) ∧
    or64 (or64 (shl64 (sub64 wShiftWrapFin.LastTimeStamp wShiftWrap.CustomEpoch)
        (wShiftWrap.SequenceBits + wShiftWrap.IDBits))
      (shl64 wShiftWrap.ID wShiftWrap.IDShift)) wShiftWrapFin.Sequence = 0 ∧
    (1 : Int) ≠ 0 := by
  refine ⟨by decide, by decide, by decide, ?_, by decide⟩
  have he : wShiftWrap.SequenceBits + wShiftWrap.IDBits = 2 ^ 64 := by decide
  rw [he, shl64_large _ (2 ^ 64) (by norm_num)]
  decide

/-- C3 amended: every id a successful call returns is exactly
`((currentTick − epoch) << timestampShift) | (workerID << idShift) | sequence`
with the construction-time derived shifts as the source computes them in
uint64 arithmetic: `idShift = sequenceBits` and
`timestampShift = (sequenceBits + idBits) mod 2^64` (which `NewWorker` indeed
stores); whenever the fields fit their widths and `totalBits ≤ 63` — so no
uint64 wrap occurs in the shift — the id decomposes positionally into sign
bit 0, timestamp, worker and sequence fields. -/
theorem compose_spec (w : Worker) (clock : List Int) (i : Int) (w' : Worker)
    (rest : List Int)
    (hsh : w.IDShift = w.SequenceBits)
    (hts : w.TimeStampShift = (w.SequenceBits + w.IDBits) % 2 ^ 64)
    (hok : w.UnsafeNextID clock = .ok (i, w', rest)) :
    (∀ (id epoch : Int) (idB seqB tsB : Nat) (f t0 : Int) (w0 : Worker),
        NewWorker id epoch idB seqB tsB f t0 = some w0 →
        w0.IDShift = seqB ∧ w0.TimeStampShift = (seqB + idB) % 2 ^ 64) ∧
    i = or64 (or64 (shl64 (sub64 w'.LastTimeStamp w.CustomEpoch)
          ((w.SequenceBits + w.IDBits) % 2 ^ 64)) (shl64 w.ID w.SequenceBits))
        w'.Sequence ∧
    (w.IDBits + w.SequenceBits + w.TimeStampBits + 1 ≤ 63 →
      0 ≤ w.ID → w.ID < 2 ^ w.IDBits →
      0 ≤ w'.Sequence → w'.Sequence < 2 ^ w.SequenceBits →
      TickInRange w.CustomEpoch w.TimeStampBits w'.LastTimeStamp →
      i = (w'.LastTimeStamp - w.CustomEpoch) * 2 ^ (w.SequenceBits + w.IDBits)
            + w.ID * 2 ^ w.SequenceBits + w'.Sequence ∧
      0 ≤ i ∧ i < 2 ^ (w.IDBits + w.SequenceBits + w.TimeStampBits)) := by
  obtain ⟨hI, hcfg⟩ := step_compose_frame w clock i w' rest hok
  refine ⟨?_, ?_, ?_⟩
  · intro id epoch idB seqB tsB f t0 w0 hnew
    simp only [NewWorker] at hnew
    split at hnew
    · exact absurd hnew (by simp)
    · simp only [Option.some.injEq] at hnew
      rw [← hnew]
      exact ⟨rfl, rfl⟩
  · rw [hI]
    unfold Worker.composeID
    rw [hsh, hts]
  · intro htot hw0 hw1 hq0 hq1 htick
    have hbits62 : w.IDBits + w.SequenceBits + w.TimeStampBits ≤ 62 := by omega
    have hts' : w.TimeStampShift = w.SequenceBits + w.IDBits := by
      rw [hts]
      exact Nat.mod_eq_of_lt (by omega)
    have heqadd := composeID_eq_add w w'.LastTimeStamp w'.Sequence hsh hts'
      hbits62 hw0 hw1 hq0 hq1 htick
    obtain ⟨ht0, ht1⟩ := htick
    have hbounds := field_sum_bounds (w'.LastTimeStamp - w.CustomEpoch) w.ID
      w'.Sequence w.SequenceBits w.IDBits w.TimeStampBits (by omega) (by omega)
      hw0 hw1 hq0 hq1
    refine ⟨by rw [hI, heqadd], ?_, ?_⟩
    · rw [hI, heqadd]
      exact hbounds.1
    · rw [hI, heqadd]
      exact hbounds.2

/-- Witness for C3: the concrete mid-life worker `wMid` returns id 18
composed by the shift/or formula with the uint64-derived shift. -/
theorem compose_spec_witness :
    wMid.TimeStampShift = (wMid.SequenceBits + wMid.IDBits) % 2 ^ 64 ∧
    wMid.UnsafeNextID [4, 7] = .ok (18, wMidFin, [7]) ∧
    (18 : Int) = or64 (or64 (shl64 (sub64 wMidFin.LastTimeStamp wMid.CustomEpoch)
      ((wMid.SequenceBits + wMid.IDBits) % 2 ^ 64)) (shl64 wMid.ID wMid.SequenceBits))
      wMidFin.Sequence :=
  ⟨by decide, by decide,
   (compose_spec wMid [4, 7] 18 wMidFin [7] (by decide) (by decide) (by decide)).2.1⟩

/-- C4 counterexample: with `LastTimeStamp = 5` and the clock trace `[3, 6]`
(the clock rolled back to 3), the drift-wait consumes the reading 6 > 5, yet
the call returns with `LastTimeStamp = 3`, strictly below the entry value 5 —
refuting the claim that `LastTimeStamp` at return is not smaller than at
entry. -/
theorem backward_clock_counterexample :
    wBack.LastTimeStamp = 5 ∧
    wBack.UnsafeNextID [3, 6] = .ok (3, wBackFin, []) ∧
    wBackFin.LastTimeStamp < wBack.LastTimeStamp := by
  refine ⟨by decide, by decide, by decide⟩

/-- C4 amended: when the call starts with `lastTick > currentTick`, the
drift-wait blocks until the clock exceeds the entry `lastTick` and adopts that
value — but line 90 then overwrites `LastTimeStamp` with the original
(smaller) `currentTick` reading, so at return `LastTimeStamp` equals the
original `currentTick`, *strictly below* its entry value, and the id is
composed from that stale tick with sequence 0. -/
theorem backward_clock_spec (w : Worker) (t : Int) (rest : List Int) (i : Int)
    (w' : Worker) (rest' : List Int)
    (hlt : t < w.LastTimeStamp)
    (hok : w.UnsafeNextID (t :: rest) = .ok (i, w', rest')) :
    (∃ ts rest1, waitAux w.LastTimeStamp rest = some (ts, rest1) ∧
       w.LastTimeStamp < ts ∧ rest' = rest1) ∧
    w'.LastTimeStamp = t ∧ w'.Sequence = 0 ∧
    w'.LastTimeStamp < w.LastTimeStamp ∧
    i = w.composeID t 0 := by
  obtain ⟨t0, rest0, w1, rest1, hcl, hbr, hstep⟩ := nextID_cases _ _ _ _ _ hok
  injection hcl with hc1 hc2
  subst hc1
  subst hc2
  rcases hbr with ⟨hle, -, -⟩ | ⟨-, hwait⟩
  · omega
  obtain ⟨hlt1, hsub1, hw1, haux⟩ := waitForNextTime_spec _ _ _ _ hwait
  obtain ⟨hI, hcfg1, hdisj⟩ := sequenceStep_cases _ _ _ _ _ _ hstep
  have hw1L : w.LastTimeStamp < w1.LastTimeStamp := hlt1
  rcases hdisj with ⟨heq, -, -, -⟩ | ⟨-, hseq'0, hLTS', hrr⟩
  · omega
  refine ⟨⟨w1.LastTimeStamp, rest1, haux, hw1L, hrr⟩, hLTS', hseq'0, by omega, ?_⟩
  have hcfg0 : SameConfig w w1 := by
    rw [hw1]
    exact ⟨rfl, rfl, rfl, rfl, rfl, rfl, rfl, rfl, rfl⟩
  rw [hI, hLTS', hseq'0]
  exact composeID_congr hcfg0 _ _

/-- Witness for C4 at the concrete rolled-back worker `wBack`. -/
theorem backward_clock_spec_witness :
    (3 : Int) < wBack.LastTimeStamp ∧
    wBack.UnsafeNextID [3, 6] = .ok (3, wBackFin, []) ∧
    wBackFin.LastTimeStamp < wBack.LastTimeStamp :=
  ⟨by decide, by decide,
   (backward_clock_spec wBack 3 [6] 3 wBackFin [] (by decide) (by decide)).2.2.2.1⟩

/-- C5 counterexample: with `sequenceBits = 64` (a configuration `NewWorker`
accepts, since 0+64+1+1 = 66 is divisible by 6), `1 << 64` is the int64 value
0, and a same-tick call panics with an integer division by zero instead of
incrementing the sequence modulo `2^64` — even with further clock readings
available. -/
theorem seq64_counterexample :
    NewWorker 0 0 0 64 1 1 0 = some wSeq64 ∧
    wSeq64.LastTimeStamp = 0 ∧
    shl64 1 wSeq64.SequenceBits = 0 ∧
    wSeq64.UnsafeNextID [0, 1, 2] = .divZero := by
  refine ⟨by decide, by decide, by decide, by decide⟩

/-- C5 amended: in a same-tick call with `sequenceBits ≤ 62` (so that
`1 << sequenceBits` is the int64 value `2^sequenceBits`), the sequence is
incremented modulo `2^sequenceBits`; on wraparound to 0 the call blocks until
the clock strictly exceeds the tick and composes the id from that strictly
later tick, otherwise the tick is unchanged; the id is always composed from
the final tick and sequence. -/
theorem same_tick_spec (w : Worker) (t : Int) (rest : List Int) (i : Int)
    (w' : Worker) (rest' : List Int)
    (hk : w.SequenceBits ≤ 62)
    (hs0 : 0 ≤ w.Sequence) (hs1 : w.Sequence < 2 ^ w.SequenceBits)
    (heq : w.LastTimeStamp = t)
    (hok : w.UnsafeNextID (t :: rest) = .ok (i, w', rest')) :
    w'.Sequence = (w.Sequence + 1) % (2 ^ w.SequenceBits : Int) ∧
    ((w.Sequence + 1) % (2 ^ w.SequenceBits : Int) = 0 →
       waitAux t rest = some (w'.LastTimeStamp, rest') ∧ t < w'.LastTimeStamp) ∧
    ((w.Sequence + 1) % (2 ^ w.SequenceBits : Int) ≠ 0 →
       w'.LastTimeStamp = t ∧ rest' = rest) ∧
    i = w.composeID w'.LastTimeStamp w'.Sequence := by
  obtain ⟨t0, rest0, w1, rest1, hcl, hbr, hstep⟩ := nextID_cases _ _ _ _ _ hok
  injection hcl with hc1 hc2
  subst hc1
  subst hc2
  rcases hbr with ⟨-, hw1, hr1⟩ | ⟨hlt2, -⟩
  swap
  · omega
  rw [hw1, hr1] at hstep
  obtain ⟨hI, hcfg, hdisj⟩ := sequenceStep_cases _ _ _ _ _ _ hstep
  obtain ⟨hmod, -, -⟩ := seq_update_bounds w.Sequence w.SequenceBits hk hs0 hs1
  rcases hdisj with ⟨-, -, hseq', hsub⟩ | ⟨hne, -, -, -⟩
  swap
  · exact absurd heq hne
  have hseq'' : w'.Sequence = (w.Sequence + 1) % (2 ^ w.SequenceBits : Int) := by
    rw [hseq', hmod]
  refine ⟨hseq'', ?_, ?_, hI⟩
  · intro hz
    rcases hsub with ⟨hnz, -, -⟩ | ⟨-, haux, hlt3⟩
    · exact absurd (hseq''.trans hz) hnz
    · exact ⟨haux, hlt3⟩
  · intro hnz
    rcases hsub with ⟨-, hLTS', hrr⟩ | ⟨hz0, -, -⟩
    · exact ⟨hLTS', hrr⟩
    · exact absurd (hseq''.symm.trans hz0) hnz

/-- Witness for C5 at the concrete worker `wMid` (same tick 4, sequence
1 → 2 = (1+1) mod 4, no wraparound). -/
theorem same_tick_spec_witness :
    wMid.LastTimeStamp = 4 ∧
    wMid.UnsafeNextID [4, 7] = .ok (18, wMidFin, [7]) ∧
    wMidFin.Sequence = (wMid.Sequence + 1) % (2 ^ wMid.SequenceBits : Int) :=
  ⟨by decide, by decide,
   (same_tick_spec wMid 4 [7] 18 wMidFin [7] (by decide) (by decide) (by decide)
     (by decide) (by decide)).1⟩

/-- C7: under a well-formed configuration (derived shifts, worker id within
`2^idBits`, `totalBits ≤ 63`, entry sequence in range) and a composition tick
whose epoch offset fits the timestamp field, reversing the shifts and masks on
a returned id recovers the timestamp field `currentTick − epoch`, the worker
field equal to the configured worker id, and a sequence field within
`[0, 2^sequenceBits)`. -/
theorem field_roundtrip (w : Worker) (clock : List Int) (i : Int) (w' : Worker)
    (rest : List Int)
    (hsh : w.IDShift = w.SequenceBits)
    (hts : w.TimeStampShift = w.SequenceBits + w.IDBits)
    (htot : w.IDBits + w.SequenceBits + w.TimeStampBits + 1 ≤ 63)
    (hid0 : 0 ≤ w.ID) (hid1 : w.ID < 2 ^ w.IDBits)
    (hs0 : 0 ≤ w.Sequence) (hs1 : w.Sequence < 2 ^ w.SequenceBits)
    (hok : w.UnsafeNextID clock = .ok (i, w', rest))
    (ht : TickInRange w.CustomEpoch w.TimeStampBits w'.LastTimeStamp) :
    i.toNat / 2 ^ (w.SequenceBits + w.IDBits)
        = (w'.LastTimeStamp - w.CustomEpoch).toNat ∧
    i.toNat / 2 ^ w.SequenceBits % 2 ^ w.IDBits = w.ID.toNat ∧
    i.toNat % 2 ^ w.SequenceBits = w'.Sequence.toNat ∧
    0 ≤ w'.Sequence ∧ w'.Sequence < 2 ^ w.SequenceBits := by
  have hk : w.SequenceBits ≤ 62 := by omega
  obtain ⟨hq0, hq1⟩ := step_seq_bounds w clock i w' rest hk hs0 hs1 hok
  obtain ⟨hI, hcfg⟩ := step_compose_frame w clock i w' rest hok
  have heqadd := composeID_eq_add w w'.LastTimeStamp w'.Sequence hsh hts
    (by omega) hid0 hid1 hq0 hq1 ht
  obtain ⟨ht0, ht1⟩ := ht
  have hext := extract_fields (w'.LastTimeStamp - w.CustomEpoch) w.ID w'.Sequence
    w.SequenceBits w.IDBits w.TimeStampBits (by omega) (by omega) hid0 hid1 hq0 hq1
  rw [hI, heqadd]
  exact ⟨hext.1, hext.2.1, hext.2.2, hq0, hq1⟩

/-- Witness for C7: decomposing the concrete id 18 produced by `wMid`
(sequenceBits 2, idBits 0) recovers timestamp field 4, worker field 0 and
sequence field 2. -/
theorem field_roundtrip_witness :
    wMid.UnsafeNextID [4, 7] = .ok (18, wMidFin, [7]) ∧
    (18 : Int).toNat % 2 ^ wMid.SequenceBits = wMidFin.Sequence.toNat :=
  ⟨by decide,
   (field_roundtrip wMid [4, 7] 18 wMidFin [7] (by decide) (by decide)
     (by decide) (by decide) (by decide) (by decide) (by decide) (by decide)
     (by decide)).2.2.1⟩

/-- C1 counterexample: on the constructible configuration `wOvf`
(idBits 0, sequenceBits 4, timestampBits 61), a non-decreasing in-int64-range
clock trace `[1, 1 + 2^60]` makes two serialized calls return the *same* id
16 — the shifted timestamp field overflows the 64-bit word and wraps. -/
theorem uniqueness_counterexample :
    NewWorker 0 0 0 4 61 1 0 = some wOvf ∧
    ([(1 : Int), 1 + 2 ^ 60]).Pairwise (· ≤ ·) ∧
    idsOf (runCalls wOvf [1, 1 + 2 ^ 60] 2) = some [16, 16] := by
  refine ⟨by decide, by decide, by decide⟩

/-- C1 amended: for a fixed generator whose shifts carry their derived values,
whose fields all fit the bit budget (`workerID < 2^idBits`, entry sequence in
range, `totalBits ≤ 63`), and a non-decreasing current-tick trace that stays
at or above `LastTimeStamp` with every reading's epoch offset inside the
timestamp field, any number of serialized calls return pairwise distinct
ids — in particular `2^sequenceBits` consecutive same-tick calls and calls
spanning many ticks never repeat an id. -/
theorem uniqueness_in_range (w : Worker) (clock : List Int) (n : Nat)
    (ids : List Int) (w' : Worker) (rest : List Int)
    (hsh : w.IDShift = w.SequenceBits)
    (hts : w.TimeStampShift = w.SequenceBits + w.IDBits)
    (htot : w.IDBits + w.SequenceBits + w.TimeStampBits + 1 ≤ 63)
    (hid0 : 0 ≤ w.ID) (hid1 : w.ID < 2 ^ w.IDBits)
    (hs0 : 0 ≤ w.Sequence) (hs1 : w.Sequence < 2 ^ w.SequenceBits)
    (hpw : clock.Pairwise (· ≤ ·))
    (hge : ∀ x ∈ clock, w.LastTimeStamp ≤ x)
    (hin : ∀ x ∈ clock, TickInRange w.CustomEpoch w.TimeStampBits x)
    (hok : runCalls w clock n = .ok (ids, w', rest)) :
    ids.Pairwise (· ≠ ·) := by
  obtain ⟨hc, -⟩ := run_spec n w clock ids w' rest hsh hts (by omega) hid0 hid1
    hs0 hs1 hpw hge hin hok
  exact (List.chain'_iff_pairwise.mp hc).imp ne_of_lt

/-- Witness for C1: two serialized calls on `wBase` over the trace
`[0, 1, 2, 3]` return the distinct ids 1 and 2. -/
theorem uniqueness_in_range_witness :
    runCalls wBase [0, 1, 2, 3] 2 = .ok ([1, 2], wBaseRun2, [3]) ∧
    ([(1 : Int), 2]).Pairwise (· ≠ ·) :=
  ⟨by decide,
   uniqueness_in_range wBase [0, 1, 2, 3] 2 [1, 2] wBaseRun2 [3]
     (by decide) (by decide) (by decide) (by decide) (by decide) (by decide)
     (by decide) (by decide) (by decide) (by decide) (by decide)⟩

/-- C2 counterexample: on the constructible configuration `wOvf`, the
non-decreasing in-int64-range clock trace `[1, 2^59]` makes two serialized
calls return 16 and then `-2^63`: the second id is *smaller* (the shifted
timestamp reaches the sign bit), so the id sequence is not non-decreasing. -/
theorem monotonicity_counterexample :
    NewWorker 0 0 0 4 61 1 0 = some wOvf ∧
    ([(1 : Int), 2 ^ 59]).Pairwise (· ≤ ·) ∧
    idsOf (runCalls wOvf [1, 2 ^ 59] 2) = some [16, -(2 ^ 63)] ∧
    ¬ ([16, -(2 ^ 63)] : List Int).Chain' (· ≤ ·) := by
  refine ⟨by decide, by decide, by decide, ?_⟩
  intro h
  have h1 := (List.chain'_cons.mp h).1
  norm_num at h1

/-- C2 amended: under the same well-formed-configuration and in-range-clock
conditions as C1, the ids returned by successive serialized calls form a
non-decreasing (indeed strictly increasing) sequence of signed 64-bit
integers. -/
theorem monotonicity_in_range (w : Worker) (clock : List Int) (n : Nat)
    (ids : List Int) (w' : Worker) (rest : List Int)
    (hsh : w.IDShift = w.SequenceBits)
    (hts : w.TimeStampShift = w.SequenceBits + w.IDBits)
    (htot : w.IDBits + w.SequenceBits + w.TimeStampBits + 1 ≤ 63)
    (hid0 : 0 ≤ w.ID) (hid1 : w.ID < 2 ^ w.IDBits)
    (hs0 : 0 ≤ w.Sequence) (hs1 : w.Sequence < 2 ^ w.SequenceBits)
    (hpw : clock.Pairwise (· ≤ ·))
    (hge : ∀ x ∈ clock, w.LastTimeStamp ≤ x)
    (hin : ∀ x ∈ clock, TickInRange w.CustomEpoch w.TimeStampBits x)
    (hok : runCalls w clock n = .ok (ids, w', rest)) :
    ids.Chain' (· ≤ ·) := by
  obtain ⟨hc, -⟩ := run_spec n w clock ids w' rest hsh hts (by omega) hid0 hid1
    hs0 hs1 hpw hge hin hok
  exact hc.imp (fun a b => le_of_lt)

/-- Witness for C2: three serialized calls on `wBase` over the trace
`[0, 1, 2, 3]` return the non-decreasing ids 1, 2, 3. -/
theorem monotonicity_in_range_witness :
    runCalls wBase [0, 1, 2, 3] 3 = .ok ([1, 2, 3], wBaseRun3, []) ∧
    ([(1 : Int), 2, 3]).Chain' (· ≤ ·) :=
  ⟨by decide,
   monotonicity_in_range wBase [0, 1, 2, 3] 3 [1, 2, 3] wBaseRun3 []
     (by decide) (by decide) (by decide) (by decide) (by decide) (by decide)
     (by decide) (by decide) (by decide) (by decide) (by decide)⟩

/-- Witness for C10: a concrete call on `wBase` preserves all nine
configuration fields. -/
theorem config_frame_witness :
    wBase.UnsafeNextID [0, 1, 2] = .ok (1, wBaseFin1, [2]) ∧
    SameConfig wBase wBaseFin1 :=
  ⟨by decide,
   (config_frame wBase [0, 1, 2] 1 wBaseFin1 [2] ⟨wBase, false⟩
     ⟨wBaseFin1, false⟩).1 (by decide)⟩
